import Mathlib

/-!
# Shared-memory E2E test region and typed region view

A shallow embedding of `common/vsoc/shm/e2e_test_region.h` and
`common/vsoc/lib/typed_region_view.h`, followed by `CollectAllElements` of
`host/commands/cvd/instance_database_utils.h`, `TpmAttestationRecordContext` of
`host/commands/secure_env/tpm_attestation_record.cpp` and
`LaunchModemSimulatorIfEnabled` of `host/commands/run_cvd/launch.cc`.

C++ `std::size_t` / `uintptr_t` / `uint32_t` values are natural numbers, and
every arithmetic operation of the source is reduced modulo `2 ^ w` for the
width `w` of the type.  The two `sizeof` constants used by `NumFillRecords`
depend on `common/vsoc/shm/base.h`, so they are parameters of the embedding;
`sizeof_E2EMemoryFill` and `sizeof_E2ETestRegionLayout` give the values the
declared fields yield when the base classes are empty.
-/

namespace vsoc

/-! ## Machine arithmetic -/

/-- Unsigned subtraction on `w`-bit words: `a - b` as C++ computes it on
unsigned operands, wrapping modulo `2 ^ w`. -/
def usub (w a b : Nat) : Nat :=
  (a % 2 ^ w + (2 ^ w - b % 2 ^ w)) % 2 ^ w

/-- Unsigned addition on `w`-bit words, wrapping modulo `2 ^ w`. -/
def uadd (w a b : Nat) : Nat :=
  (a + b) % 2 ^ w

namespace layout
namespace e2e_test

/-! ## `E2ETestStage` -/

/-- Flags that are used to indicate test status (`enum E2ETestStage`). -/
inductive E2ETestStage where
  | E2E_STAGE_NONE
  | E2E_MEMORY_FILLED
  | E2E_PEER_MEMORY_READ
  deriving DecidableEq, Repr

namespace E2ETestStage

/-- The enumerator values written in the source: `= 0`, `= 1`, `= 2`. -/
def toNat : E2ETestStage → Nat
  | E2E_STAGE_NONE => 0
  | E2E_MEMORY_FILLED => 1
  | E2E_PEER_MEMORY_READ => 2

/-- Reading a stored word back as a stage (`static_cast<E2ETestStage>`); a word
that is the value of no enumerator names no stage. -/
def ofNat? : Nat → Option E2ETestStage
  | 0 => some E2E_STAGE_NONE
  | 1 => some E2E_MEMORY_FILLED
  | 2 => some E2E_PEER_MEMORY_READ
  | _ => none

end E2ETestStage

/-! ## `E2EMemoryFill` -/

/-- The constant `E2EMemoryFill::kOwnedFieldSize`. -/
def kOwnedFieldSize : Nat := 32

/-- The record `struct E2EMemoryFill`: one buffer per side. -/
structure E2EMemoryFill where
  host_writable : Fin kOwnedFieldSize → Nat
  guest_writable : Fin kOwnedFieldSize → Nat

/-- The size of `E2EMemoryFill` when `Base` is an empty base class: the two
`char` arrays. -/
def sizeof_E2EMemoryFill : Nat := kOwnedFieldSize + kOwnedFieldSize

/-! ## `E2ETestStageRegister` -/

/-- The class `E2ETestStageRegister`: one `uint32_t` word. -/
structure E2ETestStageRegister where
  value_ : Nat
  deriving DecidableEq, Repr

namespace E2ETestStageRegister

/-- The method `E2ETestStageRegister::value`. -/
def value (r : E2ETestStageRegister) : Option E2ETestStage :=
  E2ETestStage.ofNat? r.value_

/-- The method `E2ETestStageRegister::set_value`: `value_ = new_value`, the
enumerator converted to `uint32_t`. -/
def set_value (new_value : E2ETestStage) (_r : E2ETestStageRegister) :
    E2ETestStageRegister :=
  { value_ := new_value.toNat % 2 ^ 32 }

end E2ETestStageRegister

/-- The size of `E2ETestStageRegister`: its `uint32_t` member. -/
def sizeof_E2ETestStageRegister : Nat := 4

/-! ## `E2ETestRegionLayout` -/

/-- The size of `E2ETestRegionLayout` when `RegionLayout` is an empty base
class: two stage registers and the one-element `data` array. -/
def sizeof_E2ETestRegionLayout : Nat :=
  sizeof_E2ETestStageRegister + sizeof_E2ETestStageRegister + 1 * sizeof_E2EMemoryFill

/-- The function `E2ETestRegionLayout::NumFillRecords`, on `w`-bit `size_t`,
with `header_size = sizeof(E2ETestRegionLayout)` and
`record_size = sizeof(E2EMemoryFill)`. -/
def NumFillRecords (w header_size record_size : Nat) (region_size : Nat) : Nat :=
  if region_size < header_size then
    0
  else
    uadd w 1 (usub w region_size header_size / record_size)

/-- The operands of the unsigned subtraction in `NumFillRecords`, when the
call evaluates it: the early `return 0` evaluates no subtraction. -/
def NumFillRecords_subtraction (header_size : Nat) (region_size : Nat) :
    Option (Nat × Nat) :=
  if region_size < header_size then none else some (region_size, header_size)

/-- The class `E2ETestRegionLayout`: the two stage registers followed by the
fill records.  `data` is declared with one element and the rest of the region
is used as further records, so the model carries the whole array. -/
structure E2ETestRegionLayout where
  guest_status : E2ETestStageRegister
  host_status : E2ETestStageRegister
  data : List E2EMemoryFill

namespace E2ETestRegionLayout

/-- The statement `layout.guest_status.set_value(s)`. -/
def guest_status_set_value (s : E2ETestStage) (l : E2ETestRegionLayout) :
    E2ETestRegionLayout :=
  { l with guest_status := l.guest_status.set_value s }

/-- The statement `layout.host_status.set_value(s)`. -/
def host_status_set_value (s : E2ETestStage) (l : E2ETestRegionLayout) :
    E2ETestRegionLayout :=
  { l with host_status := l.host_status.set_value s }

end E2ETestRegionLayout

/-! ## Sequences of `set_value` calls -/

/-- The stages read by `value()` after each call of a sequence of `set_value`
calls on one register. -/
def value_trace : List E2ETestStage → E2ETestStageRegister → List (Option E2ETestStage)
  | [], _ => []
  | s :: ss, r => (r.set_value s).value :: value_trace ss (r.set_value s)

/-- One read is followed by a read that is not smaller: both reads name a
stage and the numeric value of the first is at most that of the second. -/
def reads_le (a b : Option E2ETestStage) : Prop :=
  match a, b with
  | some x, some y => x.toNat ≤ y.toNat
  | _, _ => False

instance reads_le_decidable : DecidableRel reads_le := fun a b =>
  match a, b with
  | some x, some y => inferInstanceAs (Decidable (x.toNat ≤ y.toNat))
  | some _, none => isFalse (fun h => h)
  | none, some _ => isFalse (fun h => h)
  | none, none => isFalse (fun h => h)

end e2e_test
end layout

/-! ## `TypedRegionView` -/

/-- Modelled from the spec: the region descriptor the mapping mechanism
supplies once a region is opened (region name, total mapped size, offset of
the typed payload within the mapped segment); its declaration is not among the
sources. -/
structure RegionDescriptor where
  name : String
  region_size : Nat
  offset_of_region_data : Nat
  deriving DecidableEq, Repr

/-- Modelled from the spec: the members `region_base_` and `region_desc_` that
`TypedRegionView` inherits from `OpenableRegionView`, whose declaration is not
among the sources: the base address of the mapping and the descriptor. -/
structure RegionView where
  region_base_ : Nat
  region_desc_ : RegionDescriptor
  deriving DecidableEq, Repr

/-- What `TypedRegionView` uses of its template argument `LayoutType`: the
static `region_name` and the size of the type. -/
structure LayoutType where
  region_name : String
  sizeof : Nat
  deriving DecidableEq, Repr

/-- The signature of `OpenableRegionView::Open(name, domain)`, the mapping
mechanism `TypedRegionView::Open` calls; `σ` is everything the call may read
and change, the view included.  A null `domain` is `none`. -/
abbrev OpenFn (σ : Type) : Type := String → Option String → σ → Bool × σ

namespace TypedRegionView

/-- The method `LayoutType* data()`: the address the returned pointer holds,
on `w`-bit `uintptr_t`, and the view after the call (nothing is assigned). -/
def data (w : Nat) (v : RegionView) : Nat × RegionView :=
  (uadd w v.region_base_ v.region_desc_.offset_of_region_data, v)

/-- The method `const LayoutType& data() const`: the address of the object the
returned reference is bound to, and the view after the call. -/
def data_const (w : Nat) (v : RegionView) : Nat × RegionView :=
  (uadd w v.region_base_ v.region_desc_.offset_of_region_data, v)

/-- The method `bool Open(const char* domain = nullptr)`. -/
def Open {σ : Type} (open_region : OpenFn σ) (L : LayoutType) (domain : Option String)
    (s : σ) : Bool × σ :=
  open_region L.region_name domain s

end TypedRegionView

/-- A mapping mechanism instrumented with a log of the calls made to it: each
call appends its arguments and otherwise behaves as `open_region`. -/
def recording {σ : Type} (open_region : OpenFn σ) :
    OpenFn (σ × List (String × Option String)) :=
  fun name domain s =>
    ((open_region name domain s.1).1,
     ((open_region name domain s.1).2, s.2 ++ [(name, domain)]))

/-- Modelled from the spec: the mapping mechanism `Open(region_name, domain)`,
which "resolves and maps a region by name" and then yields the mapped base
address and the region descriptor.  `registered` lists, per domain, the base
address and descriptor of every region that can be mapped.  A name that
resolves binds the view to that region and reports success; a name that does
not resolve reports failure and leaves the view as it was. -/
def open_by_name (registered : Option String → List (Nat × RegionDescriptor)) :
    OpenFn RegionView :=
  fun name domain v =>
    match (registered domain).find? (fun r => r.2.name == name) with
    | some r => (true, { region_base_ := r.1, region_desc_ := r.2 })
    | none => (false, v)

/-- A mapping configuration in which every domain offers one region of the
given name, 16 bytes long, mapped at address 4096. -/
def small_region_registry (name : String) : Option String → List (Nat × RegionDescriptor) :=
  fun _ => [(4096, { name := name, region_size := 16, offset_of_region_data := 0 })]

namespace layout
namespace e2e_test

/-- The layout `E2EPrimaryTestRegionLayout` as a template argument; the string
its `region_name` points to is defined outside the sources and is a
parameter. -/
def E2EPrimaryTestRegionLayout (region_name : String) : LayoutType :=
  { region_name := region_name, sizeof := sizeof_E2ETestRegionLayout }

end e2e_test
end layout
end vsoc

/-! ## `CollectAllElements` -/

namespace cuttlefish
namespace instance_db

/-- The function `CollectAllElements`.  `instance_db::Set<Element>` is a finite
set, `inputs` is iterated in order, and the range insert
`output.insert(subset.cbegin(), subset.cend())` adds every element of `subset`
to `output`. -/
def CollectAllElements {Element Container : Type} [DecidableEq Element]
    (collector : Container → Finset Element) (inputs : List Container) : Finset Element :=
  inputs.foldl (fun output container => output ∪ collector container) ∅

end instance_db
end cuttlefish

/-! ## `TpmAttestationRecordContext` -/

namespace secure_env

/-- The values of `keymaster_verified_boot_t`, declared by the keymaster
library. -/
inductive keymaster_verified_boot_t where
  | KM_VERIFIED_BOOT_VERIFIED
  | KM_VERIFIED_BOOT_SELF_SIGNED
  | KM_VERIFIED_BOOT_UNVERIFIED
  | KM_VERIFIED_BOOT_FAILED
  deriving DecidableEq, Repr

/-- The values of `keymaster_error_t` this file uses. -/
inductive keymaster_error_t where
  | KM_ERROR_OK
  | KM_ERROR_UNIMPLEMENTED
  deriving DecidableEq, Repr

/-- The struct `AttestationContext::VerifiedBootParams`; a `keymaster_blob_t`
is the list of the bytes it designates. -/
structure VerifiedBootParams where
  verified_boot_key : List Nat
  verified_boot_hash : List Nat
  verified_boot_state : keymaster_verified_boot_t
  device_locked : Bool
  deriving DecidableEq, Repr

/-- The array `static uint8_t empty_vb_key[32] = {}`. -/
def empty_vb_key : List Nat := List.replicate 32 0

/-- The function `MakeVbParams`; `{empty_vb_key, sizeof(empty_vb_key)}` is the
blob of the first `sizeof(empty_vb_key)` bytes of the array. -/
def MakeVbParams : VerifiedBootParams :=
  { verified_boot_key := empty_vb_key.take empty_vb_key.length
    verified_boot_hash := empty_vb_key.take empty_vb_key.length
    verified_boot_state := keymaster_verified_boot_t.KM_VERIFIED_BOOT_UNVERIFIED
    device_locked := false }

/-- The member `vb_params_` of the class `TpmAttestationRecordContext`. -/
structure TpmAttestationRecordContext where
  vb_params_ : VerifiedBootParams
  deriving DecidableEq, Repr

/-- An entry of a keymaster `AuthorizationSet`: a tag and the bytes of its
value. -/
structure keymaster_key_param_t where
  tag : Nat
  value : List Nat
  deriving DecidableEq, Repr

/-- The tag `keymaster::TAG_ATTESTATION_APPLICATION_ID`, `KM_BYTES | 709`. -/
def TAG_ATTESTATION_APPLICATION_ID : Nat := 9 * 2 ^ 28 + 709

/-- The tag `KM_TAG_INVALID`. -/
def KM_TAG_INVALID : Nat := 0

/-- The member functions of keymaster's `AuthorizationSet` that
`VerifyAndCopyDeviceIds` calls.  The class belongs to the keymaster library, so
the operations are parameters: `Difference s other` and `Union s other` are the
set after `s.Difference(other)` and `s.Union(other)`, `find s tag` is the `int`
returned by `s.find(tag)` and `erase s index` the set after
`s.erase(index)`. -/
structure AuthorizationSetOps (σ : Type) where
  Difference : σ → σ → σ
  Union : σ → σ → σ
  find : σ → Nat → Int
  erase : σ → Int → σ

namespace TpmAttestationRecordContext

/-- The constructor `TpmAttestationRecordContext::TpmAttestationRecordContext`. -/
def new : TpmAttestationRecordContext :=
  { vb_params_ := MakeVbParams }

/-- The method `GetVerifiedBootParams`: the value left in `*error` and the
parameters the returned pointer designates, the function-local static
initialised with `MakeVbParams()`. -/
def GetVerifiedBootParams (_ctx : TpmAttestationRecordContext)
    (_error : keymaster_error_t) : keymaster_error_t × VerifiedBootParams :=
  (keymaster_error_t.KM_ERROR_OK, MakeVbParams)

/-- The method `VerifyAndCopyDeviceIds`: the returned error code and the set
left in `*attestation`.  The condition `if (int index = ...)` holds when the
index is not zero. -/
def VerifyAndCopyDeviceIds {σ : Type} (ops : AuthorizationSetOps σ)
    (attestation_params : σ) (attestation : σ) : keymaster_error_t × σ :=
  let attestation1 := ops.Difference attestation attestation_params
  let attestation2 := ops.Union attestation1 attestation_params
  let index := ops.find attestation2 TAG_ATTESTATION_APPLICATION_ID
  let attestation3 := if index ≠ 0 then ops.erase attestation2 index else attestation2
  (keymaster_error_t.KM_ERROR_OK, attestation3)

end TpmAttestationRecordContext

/-- Keymaster's `AuthorizationSet::Deduplicate` on a list of entries: the
entries are ordered by tag, repeated entries are dropped and entries tagged
`KM_TAG_INVALID` are removed. -/
def Deduplicate (s : List keymaster_key_param_t) : List keymaster_key_param_t :=
  ((s.insertionSort (fun a b => a.tag ≤ b.tag)).dedup).filter
    (fun p => p.tag != KM_TAG_INVALID)

/-- A list model of keymaster's `AuthorizationSet` operations, after the
library's behaviour: `find` returns the index of the first entry with the tag
and `-1` when there is none; `erase` removes the entry at an index inside the
set and does nothing for any other index; `Difference` and `Union` return at
once for an empty argument, and otherwise remove the argument's entries from
the deduplicated set, respectively append them and deduplicate. -/
def ListAuthorizationSet : AuthorizationSetOps (List keymaster_key_param_t) where
  Difference s other :=
    if other.isEmpty then s else other.foldl (fun acc p => acc.erase p) (Deduplicate s)
  Union s other :=
    if other.isEmpty then s else Deduplicate (s ++ other)
  find s tag :=
    if s.findIdx (fun p => p.tag == tag) < s.length then
      (s.findIdx (fun p => p.tag == tag) : Int)
    else -1
  erase s index :=
    if 0 ≤ index ∧ index < s.length then s.eraseIdx index.toNat else s

end secure_env

/-! ## `LaunchModemSimulatorIfEnabled` -/

namespace run_cvd

/-- The constant `std::string::npos`, the largest `w`-bit `size_t`. -/
def npos (w : Nat) : Nat := 2 ^ w - 1

/-- The call `s.find(c)` on a `std::string`: the index of the first occurrence
of the character, `npos` when there is none. -/
def string_find (w : Nat) (s : List Char) (c : Char) : Nat :=
  if s.findIdx (fun x => x == c) < s.length then s.findIdx (fun x => x == c) else npos w

/-- The call `s.substr(pos, count)`: the `min(count, size - pos)` characters
from index `pos`; `none` stands for the `std::out_of_range` thrown when `pos`
exceeds the size. -/
def string_substr (s : List Char) (pos count : Nat) : Option (List Char) :=
  if pos > s.length then none else some ((s.drop pos).take (min count (s.length - pos)))

/-- The white-space characters `std::stoi` skips. -/
def isspace (c : Char) : Bool :=
  c == ' ' || c == '\t' || c == '\n' || c == '\r' || c.toNat == 11 || c.toNat == 12

/-- The call `std::stoi(s)` in base 10: leading white space is skipped, a sign
is optional, and the longest run of decimal digits that follows is converted;
`none` stands for the exception thrown when there is no digit to convert or the
value is outside the range of `int`. -/
def stoi (s : List Char) : Option Int :=
  let body := s.dropWhile isspace
  let negative := body.head? == some '-'
  let unsigned := if body.head? == some '-' || body.head? == some '+' then body.tail else body
  let digits := unsigned.takeWhile Char.isDigit
  if digits.isEmpty then none
  else
    let magnitude : Nat := digits.foldl (fun acc c => 10 * acc + (c.toNat - '0'.toNat)) 0
    let value : Int := if negative then -(magnitude : Int) else (magnitude : Int)
    if -(2 : Int) ^ 31 ≤ value ∧ value < (2 : Int) ^ 31 then some value else none

/-- What `LaunchModemSimulatorIfEnabled` reads of the configuration. -/
structure ModemSimulatorConfig where
  enable_modem_simulator : Bool
  modem_simulator_instance_number : Int
  modem_simulator_sim_type : Int
  modem_simulator_ports : List Char

/-- How a call of `LaunchModemSimulatorIfEnabled` ends. -/
inductive LaunchResult where
  /-- The return after "Modem simulator not enabled". -/
  | not_enabled
  /-- The return after the instance number is reported as out of range. -/
  | instance_number_rejected
  /-- An exception of `std::stoi` or `substr` leaves the function; the sockets
  bound to these ports were opened before. -/
  | exception (opened : List Int)
  /-- The call `std::exit(kModemSimulatorServerError)` after a server socket
  failed to open. -/
  | server_socket_error (opened : List Int)
  /-- The call `StartSubprocess` of the modem simulator, with `-sim_type=` and
  the server sockets bound to these ports, in the order opened. -/
  | started (sim_type : Int) (server_ports : List Int)
  deriving DecidableEq, Repr

/-- The loop `for (int i = 0; i < instance_number; ++i)` with `remaining`
iterations to go: `ports` is the variable of that name, `opened` the ports of
the sockets opened so far, and `vsock_server_opens port` tells whether
`SharedFD::VsockServer(port, SOCK_STREAM)` yields an open socket. -/
def open_server_sockets (w : Nat) (vsock_server_opens : Int → Bool) :
    Nat → List Char → List Int → Except LaunchResult (List Int)
  | 0, _, opened => Except.ok opened
  | remaining + 1, ports, opened =>
    let pos := string_find w ports ','
    let temp := if pos ≠ npos w then string_substr ports 0 (vsoc.usub w pos 1) else some ports
    match temp with
    | none => Except.error (LaunchResult.exception opened)
    | some temp =>
      match stoi temp with
      | none => Except.error (LaunchResult.exception opened)
      | some port =>
        match string_substr ports (vsoc.uadd w pos 1) (npos w) with
        | none => Except.error (LaunchResult.exception opened)
        | some ports =>
          if vsock_server_opens port then
            open_server_sockets w vsock_server_opens remaining ports (opened ++ [port])
          else
            Except.error (LaunchResult.server_socket_error opened)

/-- The function `LaunchModemSimulatorIfEnabled`, on `w`-bit `size_t`. -/
def LaunchModemSimulatorIfEnabled (w : Nat) (vsock_server_opens : Int → Bool)
    (config : ModemSimulatorConfig) : LaunchResult :=
  if !config.enable_modem_simulator then
    LaunchResult.not_enabled
  else if config.modem_simulator_instance_number > 3
      ∨ config.modem_simulator_instance_number < 0 then
    LaunchResult.instance_number_rejected
  else
    match open_server_sockets w vsock_server_opens
        config.modem_simulator_instance_number.toNat config.modem_simulator_ports [] with
    | Except.error r => r
    | Except.ok opened => LaunchResult.started config.modem_simulator_sim_type opened

end run_cvd

/-! ## The E2E handshake -/

namespace vsoc
namespace layout
namespace e2e_test

/-- The two sides that map a region. -/
inductive Side where
  | host
  | guest
  deriving DecidableEq, Repr

/-- The peer of a side. -/
def Side.peer : Side → Side
  | Side.host => Side.guest
  | Side.guest => Side.host

/-- The buffer of a record that a side may write: `host_writable` for the
host, `guest_writable` for the guest. -/
def E2EMemoryFill.writable (r : E2EMemoryFill) : Side → (Fin kOwnedFieldSize → Nat)
  | Side.host => r.host_writable
  | Side.guest => r.guest_writable

/-- A side copies a pattern into its own buffer of a record. -/
def E2EMemoryFill.set_writable (S : Side) (pattern : Fin kOwnedFieldSize → Nat)
    (r : E2EMemoryFill) : E2EMemoryFill :=
  match S with
  | Side.host => { r with host_writable := pattern }
  | Side.guest => { r with guest_writable := pattern }

/-- The stage register a side owns: `host_status` for the host, `guest_status`
for the guest. -/
def E2ETestRegionLayout.status (l : E2ETestRegionLayout) : Side → E2ETestStageRegister
  | Side.host => l.host_status
  | Side.guest => l.guest_status

/-- A side calls `set_value` on the stage register it owns. -/
def E2ETestRegionLayout.status_set_value (S : Side) (s : E2ETestStage)
    (l : E2ETestRegionLayout) : E2ETestRegionLayout :=
  match S with
  | Side.host => l.host_status_set_value s
  | Side.guest => l.guest_status_set_value s

/-- A side copies a pattern into its own buffer of the first `n` records. -/
def write_pattern (S : Side) (pattern : Fin kOwnedFieldSize → Nat) :
    Nat → List E2EMemoryFill → List E2EMemoryFill
  | 0, records => records
  | _ + 1, [] => []
  | n + 1, r :: records => r.set_writable S pattern :: write_pattern S pattern n records

/-- The comparison of one buffer with a pattern, byte by byte. -/
def field_matches (field pattern : Fin kOwnedFieldSize → Nat) : Bool :=
  decide (∀ j : Fin kOwnedFieldSize, field j = pattern j)

/-- Modelled from the spec: step 2 of the transition
`MEMORY_FILLED → PEER_MEMORY_READ`, which the test harness (not among the
sources) performs: side `S` "reads every record's peer-writable field across
the full region and compares against the peer's known expected pattern", for
the record indices below `record_count`. -/
def all_records_match (pattern : Side → Fin kOwnedFieldSize → Nat) (record_count : Nat)
    (S : Side) (l : E2ETestRegionLayout) : Bool :=
  (List.range record_count).all fun i =>
    match l.data[i]? with
    | some r => field_matches (r.writable S.peer) (pattern S.peer)
    | none => false

/-- Modelled from the spec: the peer's stage register, as side `S` polls it,
has reached `MEMORY_FILLED`. -/
def peer_memory_filled (S : Side) (l : E2ETestRegionLayout) : Bool :=
  match (l.status S.peer).value with
  | some s => decide (E2ETestStage.E2E_MEMORY_FILLED.toNat ≤ s.toNat)
  | none => false

/-- Modelled from the spec: the transition `NONE → MEMORY_FILLED` of side `S`,
performed by the test harness (not among the sources): from stage `NONE`, `S`
"writes its identifying pattern into every record's `S_writable` field across
the full computed record count" and then "sets its own Stage Register to
`MEMORY_FILLED`". -/
def fill_memory (pattern : Side → Fin kOwnedFieldSize → Nat) (record_count : Nat)
    (S : Side) (l : E2ETestRegionLayout) : E2ETestRegionLayout :=
  if (l.status S).value = some E2ETestStage.E2E_STAGE_NONE then
    E2ETestRegionLayout.status_set_value S E2ETestStage.E2E_MEMORY_FILLED
      { l with data := write_pattern S (pattern S) record_count l.data }
  else
    l

/-- Modelled from the spec: the transition `MEMORY_FILLED → PEER_MEMORY_READ`
of side `S`, performed by the test harness (not among the sources): from stage
`MEMORY_FILLED`, once the peer's register has reached `MEMORY_FILLED`, `S`
compares every record; "if every record matches, S sets its own Stage Register
to `PEER_MEMORY_READ`", and if any record mismatches "S must not advance its
register". -/
def read_peer_memory (pattern : Side → Fin kOwnedFieldSize → Nat) (record_count : Nat)
    (S : Side) (l : E2ETestRegionLayout) : E2ETestRegionLayout :=
  if (l.status S).value = some E2ETestStage.E2E_MEMORY_FILLED
      ∧ peer_memory_filled S l = true then
    if all_records_match pattern record_count S l = true then
      E2ETestRegionLayout.status_set_value S E2ETestStage.E2E_PEER_MEMORY_READ l
    else
      l
  else
    l

/-- The events of a protocol run on one region: a side attempts one of its two
transitions, or the records are overwritten from outside the protocol (the
corruption of the spec's scenario 4). -/
inductive ProtocolAction where
  | fill (S : Side)
  | read (S : Side)
  | corrupt (data : List E2EMemoryFill)

/-- Modelled from the spec: one event of a protocol run. -/
def protocol_step (pattern : Side → Fin kOwnedFieldSize → Nat) (record_count : Nat) :
    ProtocolAction → E2ETestRegionLayout → E2ETestRegionLayout
  | ProtocolAction.fill S, l => fill_memory pattern record_count S l
  | ProtocolAction.read S, l => read_peer_memory pattern record_count S l
  | ProtocolAction.corrupt data, l => { l with data := data }

/-- Modelled from the spec: a protocol run, the events applied in order. -/
def protocol_run (pattern : Side → Fin kOwnedFieldSize → Nat) (record_count : Nat) :
    List ProtocolAction → E2ETestRegionLayout → E2ETestRegionLayout
  | [], l => l
  | a :: actions, l =>
    protocol_run pattern record_count actions (protocol_step pattern record_count a l)

/-- The layout `E2EUnfindableRegionLayout` as a template argument; the string
its `region_name` points to is defined outside the sources and is a
parameter. -/
def E2EUnfindableRegionLayout (region_name : String) : LayoutType :=
  { region_name := region_name, sizeof := sizeof_E2ETestRegionLayout }

/-- A region of one record with both buffers zero and both stage registers at
`E2E_STAGE_NONE`. -/
def fresh_region : E2ETestRegionLayout :=
  { guest_status := { value_ := 0 }
    host_status := { value_ := 0 }
    data := [{ host_writable := fun _ => 0, guest_writable := fun _ => 0 }] }

/-- Test patterns: every byte of the host's is 104 and of the guest's 103. -/
def test_pattern : Side → Fin kOwnedFieldSize → Nat
  | Side.host => fun _ => 104
  | Side.guest => fun _ => 103

end e2e_test
end layout
end vsoc

/-! # Theorems -/

namespace vsoc

theorem usub_of_le (w a b : Nat) (hab : b ≤ a) (ha : a < 2 ^ w) :
    usub w a b = a - b := by
  unfold usub
  have hb : b < 2 ^ w := lt_of_le_of_lt hab ha
  rw [Nat.mod_eq_of_lt ha, Nat.mod_eq_of_lt hb]
  have h : a + (2 ^ w - b) = (a - b) + 2 ^ w := by omega
  rw [h, Nat.add_mod_right]
  exact Nat.mod_eq_of_lt (by omega)

namespace layout
namespace e2e_test

theorem NumFillRecords_of_le (w H R r : Nat) (hH : 0 < H) (hr : r < 2 ^ w)
    (hle : H ≤ r) : NumFillRecords w H R r = 1 + (r - H) / R := by
  unfold NumFillRecords
  rw [if_neg (by omega), usub_of_le w r H hle hr]
  unfold uadd
  apply Nat.mod_eq_of_lt
  have : (r - H) / R ≤ r - H := Nat.div_le_self _ _
  omega

theorem NumFillRecords_of_lt (w H R r : Nat) (hlt : r < H) :
    NumFillRecords w H R r = 0 := by
  unfold NumFillRecords
  rw [if_pos hlt]

/-! ## `NumFillRecords` -/

/-- C1: for every `w`-bit region size `r`, `NumFillRecords r` is
`1 + (r - header_size) / record_size` (integer division) when
`header_size ≤ r` and `0` when `r < header_size`; and whenever the call
evaluates the unsigned subtraction its operands `a - b` satisfy `b ≤ a`, so the
wrapping subtraction is the exact difference. -/
theorem NumFillRecords_eq (w header_size record_size r : Nat)
    (hH : 0 < header_size) (hr : r < 2 ^ w) :
    (header_size ≤ r →
      NumFillRecords w header_size record_size r = 1 + (r - header_size) / record_size) ∧
    (r < header_size → NumFillRecords w header_size record_size r = 0) ∧
    (∀ a b, NumFillRecords_subtraction header_size r = some (a, b) →
      b ≤ a ∧ usub w a b = a - b) := by
  refine ⟨NumFillRecords_of_le w header_size record_size r hH hr,
    NumFillRecords_of_lt w header_size record_size r, ?_⟩
  intro a b hab
  unfold NumFillRecords_subtraction at hab
  split at hab
  · exact absurd hab (by simp)
  · rename_i hnlt
    simp only [Option.some.injEq, Prod.mk.injEq] at hab
    obtain ⟨ha, hb⟩ := hab
    subst ha hb
    exact ⟨Nat.le_of_not_lt hnlt, usub_of_le w r header_size (Nat.le_of_not_lt hnlt) hr⟩

theorem NumFillRecords_eq_witness :
    (0 < sizeof_E2ETestRegionLayout ∧ 200 < 2 ^ 64) ∧
    ((sizeof_E2ETestRegionLayout ≤ 200 →
      NumFillRecords 64 sizeof_E2ETestRegionLayout sizeof_E2EMemoryFill 200
        = 1 + (200 - sizeof_E2ETestRegionLayout) / sizeof_E2EMemoryFill) ∧
    (200 < sizeof_E2ETestRegionLayout →
      NumFillRecords 64 sizeof_E2ETestRegionLayout sizeof_E2EMemoryFill 200 = 0) ∧
    (∀ a b, NumFillRecords_subtraction sizeof_E2ETestRegionLayout 200 = some (a, b) →
      b ≤ a ∧ usub 64 a b = a - b)) :=
  ⟨⟨by decide, by decide⟩,
   NumFillRecords_eq 64 sizeof_E2ETestRegionLayout sizeof_E2EMemoryFill 200
     (by decide) (by decide)⟩

/-- C2: when `header_size + k * record_size` is representable as a `w`-bit
`size_t`, `NumFillRecords (header_size + k * record_size) = k + 1`; `k = 0`
gives `1` at exactly the header size and `k = 3` gives `4`. -/
theorem NumFillRecords_header_plus_records (w header_size record_size k : Nat)
    (hH : 0 < header_size) (hR : 0 < record_size)
    (hrep : header_size + k * record_size < 2 ^ w) :
    NumFillRecords w header_size record_size (header_size + k * record_size) = k + 1 := by
  rw [NumFillRecords_of_le w header_size record_size _ hH hrep (Nat.le_add_right _ _),
    Nat.add_sub_cancel_left, Nat.mul_div_cancel k hR, Nat.add_comm]

theorem NumFillRecords_header_plus_records_witness :
    (0 < sizeof_E2ETestRegionLayout ∧ 0 < sizeof_E2EMemoryFill ∧
      sizeof_E2ETestRegionLayout + 3 * sizeof_E2EMemoryFill < 2 ^ 64) ∧
    NumFillRecords 64 sizeof_E2ETestRegionLayout sizeof_E2EMemoryFill
      (sizeof_E2ETestRegionLayout + 3 * sizeof_E2EMemoryFill) = 3 + 1 :=
  ⟨⟨by decide, by decide, by decide⟩,
   NumFillRecords_header_plus_records 64 sizeof_E2ETestRegionLayout sizeof_E2EMemoryFill 3
     (by decide) (by decide) (by decide)⟩

/-- C3: for a region size `r ≥ header_size`, `n = NumFillRecords r` satisfies
`header_size + (n - 1) * record_size ≤ r < header_size + n * record_size`: the
`n` records end inside the region, the uncovered tail is shorter than one
record, and no larger count of records fits. -/
theorem NumFillRecords_covers (w header_size record_size r : Nat)
    (hH : 0 < header_size) (hR : 0 < record_size) (hr : r < 2 ^ w)
    (hle : header_size ≤ r) :
    header_size + (NumFillRecords w header_size record_size r - 1) * record_size ≤ r ∧
    r < header_size + NumFillRecords w header_size record_size r * record_size ∧
    (∀ m, header_size + (m - 1) * record_size ≤ r →
      m ≤ NumFillRecords w header_size record_size r) := by
  rw [NumFillRecords_of_le w header_size record_size r hH hr hle]
  have h1 : (r - header_size) / record_size * record_size ≤ r - header_size :=
    Nat.div_mul_le_self _ _
  have h2 : r - header_size < record_size * ((r - header_size) / record_size + 1) :=
    Nat.lt_mul_div_succ _ hR
  refine ⟨?_, ?_, ?_⟩
  · rw [Nat.add_sub_cancel_left]
    omega
  · rw [Nat.add_comm 1, Nat.mul_comm]
    omega
  · intro m hm
    have h3 : (m - 1) * record_size ≤ r - header_size := by omega
    have h4 : m - 1 ≤ (r - header_size) / record_size :=
      (Nat.le_div_iff_mul_le hR).mpr h3
    omega

theorem NumFillRecords_covers_witness :
    (0 < sizeof_E2ETestRegionLayout ∧ 0 < sizeof_E2EMemoryFill ∧ 200 < 2 ^ 64 ∧
      sizeof_E2ETestRegionLayout ≤ 200) ∧
    (sizeof_E2ETestRegionLayout +
        (NumFillRecords 64 sizeof_E2ETestRegionLayout sizeof_E2EMemoryFill 200 - 1)
          * sizeof_E2EMemoryFill ≤ 200 ∧
     200 < sizeof_E2ETestRegionLayout +
        NumFillRecords 64 sizeof_E2ETestRegionLayout sizeof_E2EMemoryFill 200
          * sizeof_E2EMemoryFill ∧
     (∀ m, sizeof_E2ETestRegionLayout + (m - 1) * sizeof_E2EMemoryFill ≤ 200 →
        m ≤ NumFillRecords 64 sizeof_E2ETestRegionLayout sizeof_E2EMemoryFill 200)) :=
  ⟨⟨by decide, by decide, by decide, by decide⟩,
   NumFillRecords_covers 64 sizeof_E2ETestRegionLayout sizeof_E2EMemoryFill 200
     (by decide) (by decide) (by decide) (by decide)⟩

/-- C4: for every `w`-bit region size `r`, `NumFillRecords r = 0` exactly when
`r < header_size`, and every `r ≥ header_size` yields a count of at least
one. -/
theorem NumFillRecords_eq_zero_iff (w header_size record_size r : Nat)
    (hH : 0 < header_size) (hr : r < 2 ^ w) :
    (NumFillRecords w header_size record_size r = 0 ↔ r < header_size) ∧
    (header_size ≤ r → 1 ≤ NumFillRecords w header_size record_size r) := by
  have hpos : header_size ≤ r → 1 ≤ NumFillRecords w header_size record_size r := by
    intro hle
    rw [NumFillRecords_of_le w header_size record_size r hH hr hle]
    exact Nat.le_add_right 1 _
  refine ⟨⟨fun h0 => ?_, NumFillRecords_of_lt w header_size record_size r⟩, hpos⟩
  by_contra hnlt
  have := hpos (Nat.le_of_not_lt hnlt)
  omega

theorem NumFillRecords_eq_zero_iff_witness :
    (0 < sizeof_E2ETestRegionLayout ∧ 71 < 2 ^ 64) ∧
    ((NumFillRecords 64 sizeof_E2ETestRegionLayout sizeof_E2EMemoryFill 71 = 0 ↔
        71 < sizeof_E2ETestRegionLayout) ∧
     (sizeof_E2ETestRegionLayout ≤ 71 →
        1 ≤ NumFillRecords 64 sizeof_E2ETestRegionLayout sizeof_E2EMemoryFill 71)) :=
  ⟨⟨by decide, by decide⟩,
   NumFillRecords_eq_zero_iff 64 sizeof_E2ETestRegionLayout sizeof_E2EMemoryFill 71
     (by decide) (by decide)⟩

/-! ## `E2ETestStageRegister` -/

theorem E2ETestStage.ofNat?_toNat (s : E2ETestStage) :
    E2ETestStage.ofNat? (s.toNat % 2 ^ 32) = some s := by
  cases s <;> rfl

theorem E2ETestStageRegister.value_set_value (s : E2ETestStage)
    (r : E2ETestStageRegister) : (r.set_value s).value = some s :=
  E2ETestStage.ofNat?_toNat s

theorem value_trace_eq_map (ss : List E2ETestStage) (r : E2ETestStageRegister) :
    value_trace ss r = ss.map some := by
  induction ss generalizing r with
  | nil => rfl
  | cons s ss ih =>
    simp only [value_trace, List.map_cons, E2ETestStageRegister.value_set_value, ih]

/-- C8: for every stage `s` and every prior register content, after
`set_value s` the method `value` returns `s`, the stored 32-bit word is the
numeric value of `s`, and a second `set_value s` changes nothing. -/
theorem E2ETestStageRegister.set_value_round_trip (s : E2ETestStage)
    (r : E2ETestStageRegister) :
    (r.set_value s).value = some s ∧
    (r.set_value s).value_ = s.toNat ∧
    (r.set_value s).set_value s = r.set_value s := by
  refine ⟨E2ETestStageRegister.value_set_value s r, ?_, rfl⟩
  cases s <;> rfl

/-- C9, as stated, fails: writing `E2E_PEER_MEMORY_READ` and then
`E2E_STAGE_NONE` makes the stage read by `value` go from `E2E_PEER_MEMORY_READ`
back to `E2E_STAGE_NONE`. -/
theorem value_trace_decreases :
    value_trace [E2ETestStage.E2E_PEER_MEMORY_READ, E2ETestStage.E2E_STAGE_NONE]
        { value_ := 0 }
      = [some E2ETestStage.E2E_PEER_MEMORY_READ, some E2ETestStage.E2E_STAGE_NONE] ∧
    ¬ List.Chain' reads_le
        (value_trace [E2ETestStage.E2E_PEER_MEMORY_READ, E2ETestStage.E2E_STAGE_NONE]
          { value_ := 0 }) := by
  refine ⟨rfl, fun h => ?_⟩
  have hrel : reads_le (some E2ETestStage.E2E_PEER_MEMORY_READ)
      (some E2ETestStage.E2E_STAGE_NONE) := List.Chain'.rel_head h
  exact absurd hrel (by decide)

/-- C9, amended: `set_value` stores whatever stage it is given, so the stages
read after each call of a sequence are exactly the stages written, and the
stage read never decreases if and only if the sequence of stages written never
decreases. -/
theorem value_trace_monotone_iff (ss : List E2ETestStage) (r : E2ETestStageRegister) :
    value_trace ss r = ss.map some ∧
    (List.Chain' reads_le (value_trace ss r) ↔
      List.Chain' (fun a b => E2ETestStage.toNat a ≤ E2ETestStage.toNat b) ss) := by
  refine ⟨value_trace_eq_map ss r, ?_⟩
  rw [value_trace_eq_map ss r, List.chain'_map]
  exact Iff.rfl

/-- C10: for every layout state and stage `s`, `guest_status.set_value(s)`
leaves `host_status` and every fill record unchanged, and
`host_status.set_value(s)` leaves `guest_status` and every fill record
unchanged; the register written reads back `s`. -/
theorem E2ETestRegionLayout.set_value_frame (s : E2ETestStage) (l : E2ETestRegionLayout) :
    ((l.guest_status_set_value s).host_status = l.host_status ∧
      (l.guest_status_set_value s).data = l.data ∧
      (l.guest_status_set_value s).guest_status.value = some s) ∧
    ((l.host_status_set_value s).guest_status = l.guest_status ∧
      (l.host_status_set_value s).data = l.data ∧
      (l.host_status_set_value s).host_status.value = some s) :=
  ⟨⟨rfl, rfl, E2ETestStageRegister.value_set_value s l.guest_status⟩,
   ⟨rfl, rfl, E2ETestStageRegister.value_set_value s l.host_status⟩⟩

end e2e_test
end layout

/-! ## `TypedRegionView` -/

theorem uadd_of_lt (w a b : Nat) (h : a + b < 2 ^ w) : uadd w a b = a + b :=
  Nat.mod_eq_of_lt h

/-- C5: for every view state, both overloads of `data()` yield the address
`region_base_ + region_desc_.offset_of_region_data` computed on `uintptr_t`
(the exact sum whenever it is representable), the two overloads agree, and
neither changes the view. -/
theorem TypedRegionView.data_address (w : Nat) (v : RegionView) :
    (TypedRegionView.data w v).1
      = uadd w v.region_base_ v.region_desc_.offset_of_region_data ∧
    (TypedRegionView.data_const w v).1 = (TypedRegionView.data w v).1 ∧
    (TypedRegionView.data w v).2 = v ∧
    (TypedRegionView.data_const w v).2 = v ∧
    (v.region_base_ + v.region_desc_.offset_of_region_data < 2 ^ w →
      (TypedRegionView.data w v).1 = v.region_base_ + v.region_desc_.offset_of_region_data ∧
      (TypedRegionView.data_const w v).1
        = v.region_base_ + v.region_desc_.offset_of_region_data) :=
  ⟨rfl, rfl, rfl, rfl, fun h => ⟨uadd_of_lt w _ _ h, uadd_of_lt w _ _ h⟩⟩

theorem TypedRegionView.data_address_witness :
    (TypedRegionView.data 64
        { region_base_ := 4096,
          region_desc_ := { name := "r", region_size := 200, offset_of_region_data := 64 } }).1
      = 4160 := by
  have h := (TypedRegionView.data_address 64
    { region_base_ := 4096,
      region_desc_ := { name := "r", region_size := 200, offset_of_region_data := 64 } }).2.2.2.2
    (by decide)
  exact h.1

/-- C6: for every layout, domain and mapping mechanism, `Open(domain)` is one
call of the mechanism with the layout's `region_name` and the same domain: it
returns what that call returns, true exactly when the call returns true,
leaves the state exactly as the call left it, and the call log grows by the
single entry `(region_name, domain)`. -/
theorem TypedRegionView.Open_delegates {σ : Type} (open_region : OpenFn σ)
    (L : LayoutType) (domain : Option String) (s : σ)
    (log : List (String × Option String)) :
    TypedRegionView.Open open_region L domain s = open_region L.region_name domain s ∧
    ((TypedRegionView.Open open_region L domain s).1 = true ↔
      (open_region L.region_name domain s).1 = true) ∧
    (TypedRegionView.Open (recording open_region) L domain (s, log)).2.2
      = log ++ [(L.region_name, domain)] ∧
    (TypedRegionView.Open (recording open_region) L domain (s, log)).1
      = (open_region L.region_name domain s).1 ∧
    (TypedRegionView.Open (recording open_region) L domain (s, log)).2.1
      = (open_region L.region_name domain s).2 :=
  ⟨rfl, Iff.rfl, rfl, rfl, rfl⟩

/-- C7, as stated, fails: with a region named `e2e_primary` that is 16 bytes
long, `Open` for the primary test layout (whose size is larger) succeeds and
binds the view to that region. -/
theorem TypedRegionView.Open_undersized_succeeds :
    TypedRegionView.Open (open_by_name (small_region_registry "e2e_primary"))
        (layout.e2e_test.E2EPrimaryTestRegionLayout "e2e_primary") none
        { region_base_ := 0,
          region_desc_ := { name := "", region_size := 0, offset_of_region_data := 0 } }
      = (true,
          { region_base_ := 4096,
            region_desc_ :=
              { name := "e2e_primary", region_size := 16, offset_of_region_data := 0 } }) ∧
    16 < (layout.e2e_test.E2EPrimaryTestRegionLayout "e2e_primary").sizeof := by
  decide

/-- C7, amended: `Open` makes no size check.  Its result is the mapping
mechanism's result for `(region_name, domain)` and is the same for every size
of the layout; with a mechanism that resolves regions by name it succeeds
exactly when a region of that name is registered for the domain. -/
theorem TypedRegionView.Open_ignores_layout_size {σ : Type} (open_region : OpenFn σ)
    (name : String) (size size' : Nat) (domain : Option String) (s : σ)
    (registered : Option String → List (Nat × RegionDescriptor)) (v : RegionView) :
    TypedRegionView.Open open_region { region_name := name, sizeof := size } domain s
      = TypedRegionView.Open open_region { region_name := name, sizeof := size' } domain s ∧
    (TypedRegionView.Open open_region { region_name := name, sizeof := size } domain s).1
      = (open_region name domain s).1 ∧
    (TypedRegionView.Open (open_by_name registered)
        { region_name := name, sizeof := size } domain v).1
      = (registered domain).any (fun r => r.2.name == name) := by
  refine ⟨rfl, rfl, ?_⟩
  simp only [TypedRegionView.Open, open_by_name]
  cases hf : (registered domain).find? (fun r => r.2.name == name) with
  | none =>
    rw [List.find?_eq_none] at hf
    symm
    simp only [Bool.eq_false_iff, ne_eq, List.any_eq_true, not_exists, not_and]
    intro x hx
    exact hf x hx
  | some r =>
    have hmem := List.mem_of_find?_eq_some hf
    have hp := List.find?_some hf
    symm
    simp only [List.any_eq_true]
    exact ⟨r, hmem, hp⟩

end vsoc

/-! ## `CollectAllElements` -/

namespace cuttlefish
namespace instance_db

theorem mem_foldl_union {Element Container : Type} [DecidableEq Element]
    (collector : Container → Finset Element) (inputs : List Container)
    (init : Finset Element) (x : Element) :
    x ∈ inputs.foldl (fun output container => output ∪ collector container) init ↔
      x ∈ init ∨ ∃ c ∈ inputs, x ∈ collector c := by
  induction inputs generalizing init with
  | nil => simp
  | cons c cs ih =>
    rw [List.foldl_cons, ih, Finset.mem_union]
    constructor
    · rintro ((h | h) | ⟨d, hd, hx⟩)
      · exact Or.inl h
      · exact Or.inr ⟨c, List.mem_cons_self c cs, h⟩
      · exact Or.inr ⟨d, List.mem_cons_of_mem c hd, hx⟩
    · rintro (h | ⟨d, hd, hx⟩)
      · exact Or.inl (Or.inl h)
      · rcases List.mem_cons.mp hd with rfl | hd
        · exact Or.inl (Or.inr hx)
        · exact Or.inr ⟨d, hd, hx⟩

/-- C13: for every collector and every sequence of input containers, an
element is in the set `CollectAllElements` returns if and only if it is in
`collector c` for some container `c` of the inputs; an empty sequence of
inputs yields the empty set. -/
theorem CollectAllElements_spec {Element Container : Type} [DecidableEq Element]
    (collector : Container → Finset Element) (inputs : List Container) :
    (∀ x, x ∈ CollectAllElements collector inputs ↔ ∃ c ∈ inputs, x ∈ collector c) ∧
    CollectAllElements collector ([] : List Container) = ∅ := by
  refine ⟨fun x => ?_, rfl⟩
  unfold CollectAllElements
  rw [mem_foldl_union]
  simp

end instance_db
end cuttlefish

namespace vsoc
namespace layout
namespace e2e_test

/-- C16: the numeric encodings are `E2E_STAGE_NONE = 0`, `E2E_MEMORY_FILLED = 1`
and `E2E_PEER_MEMORY_READ = 2`; they increase strictly along the protocol
order, are pairwise distinct (the encoding is injective), and are the 32-bit
word `set_value` stores. -/
theorem E2ETestStage.toNat_encoding :
    (E2ETestStage.E2E_STAGE_NONE.toNat = 0 ∧
      E2ETestStage.E2E_MEMORY_FILLED.toNat = 1 ∧
      E2ETestStage.E2E_PEER_MEMORY_READ.toNat = 2) ∧
    (E2ETestStage.E2E_STAGE_NONE.toNat < E2ETestStage.E2E_MEMORY_FILLED.toNat ∧
      E2ETestStage.E2E_MEMORY_FILLED.toNat < E2ETestStage.E2E_PEER_MEMORY_READ.toNat) ∧
    (∀ a b : E2ETestStage, a.toNat = b.toNat ↔ a = b) ∧
    (∀ (s : E2ETestStage) (r : E2ETestStageRegister),
      (r.set_value s).value_ = s.toNat ∧ (r.set_value s).value_ < 2 ^ 32) := by
  refine ⟨⟨rfl, rfl, rfl⟩, ⟨by decide, by decide⟩, ?_, ?_⟩
  · intro a b
    cases a <;> cases b <;> decide
  · intro s r
    exact ⟨by cases s <;> rfl, Nat.mod_lt _ (Nat.pos_pow_of_pos 32 (by decide))⟩

/-- C17: `NumFillRecords` is monotone non-decreasing in the region size: for
`w`-bit region sizes `a ≤ b`, `NumFillRecords a ≤ NumFillRecords b`. -/
theorem NumFillRecords_mono (w header_size record_size a b : Nat)
    (hH : 0 < header_size) (hb : b < 2 ^ w) (hab : a ≤ b) :
    NumFillRecords w header_size record_size a
      ≤ NumFillRecords w header_size record_size b := by
  by_cases ha : a < header_size
  · rw [NumFillRecords_of_lt w header_size record_size a ha]
    exact Nat.zero_le _
  · have hHa : header_size ≤ a := Nat.le_of_not_lt ha
    rw [NumFillRecords_of_le w header_size record_size a hH (lt_of_le_of_lt hab hb) hHa,
      NumFillRecords_of_le w header_size record_size b hH hb (le_trans hHa hab)]
    exact Nat.add_le_add_left (Nat.div_le_div_right (Nat.sub_le_sub_right hab _)) 1

theorem NumFillRecords_mono_witness :
    (0 < sizeof_E2ETestRegionLayout ∧ 264 < 2 ^ 64 ∧ 100 ≤ 264) ∧
    NumFillRecords 64 sizeof_E2ETestRegionLayout sizeof_E2EMemoryFill 100
      ≤ NumFillRecords 64 sizeof_E2ETestRegionLayout sizeof_E2EMemoryFill 264 :=
  ⟨⟨by decide, by decide, by decide⟩,
   NumFillRecords_mono 64 sizeof_E2ETestRegionLayout sizeof_E2EMemoryFill 100 264
     (by decide) (by decide) (by decide)⟩

end e2e_test
end layout
end vsoc

/-! ## `TpmAttestationRecordContext` -/

namespace secure_env

/-- C15: for every call, `GetVerifiedBootParams` leaves `KM_ERROR_OK` in
`*error` and returns parameters whose state is `KM_VERIFIED_BOOT_UNVERIFIED`,
with `device_locked` false and a verified boot key and hash of 32 zero bytes
each: the parameters `MakeVbParams` produces, which the constructor stores. -/
theorem TpmAttestationRecordContext.GetVerifiedBootParams_unverified
    (ctx : TpmAttestationRecordContext) (error : keymaster_error_t) :
    (ctx.GetVerifiedBootParams error).1 = keymaster_error_t.KM_ERROR_OK ∧
    (ctx.GetVerifiedBootParams error).2.verified_boot_state
      = keymaster_verified_boot_t.KM_VERIFIED_BOOT_UNVERIFIED ∧
    (ctx.GetVerifiedBootParams error).2.device_locked = false ∧
    (ctx.GetVerifiedBootParams error).2.verified_boot_key = List.replicate 32 0 ∧
    (ctx.GetVerifiedBootParams error).2.verified_boot_hash = List.replicate 32 0 ∧
    (ctx.GetVerifiedBootParams error).2 = MakeVbParams ∧
    (ctx.GetVerifiedBootParams error).2 = TpmAttestationRecordContext.new.vb_params_ :=
  ⟨rfl, rfl, rfl, rfl, rfl, rfl, rfl⟩

theorem TpmAttestationRecordContext.VerifyAndCopyDeviceIds_index_zero {σ : Type}
    (ops : AuthorizationSetOps σ) (attestation_params attestation : σ)
    (h : ops.find (ops.Union (ops.Difference attestation attestation_params)
          attestation_params) TAG_ATTESTATION_APPLICATION_ID = 0) :
    TpmAttestationRecordContext.VerifyAndCopyDeviceIds ops attestation_params attestation
      = (keymaster_error_t.KM_ERROR_OK,
          ops.Union (ops.Difference attestation attestation_params) attestation_params) := by
  simp only [TpmAttestationRecordContext.VerifyAndCopyDeviceIds, h, ne_eq, not_true_eq_false,
    if_false]

/-- C19 at the failing input: with an empty `*attestation` and parameters
holding only a `TAG_ATTESTATION_APPLICATION_ID` entry, the merged set has that
entry at index 0, `find` returns 0, nothing is erased, and the set returned
with `KM_ERROR_OK` still holds the entry. -/
theorem TpmAttestationRecordContext.VerifyAndCopyDeviceIds_keeps_entry_at_index_zero :
    TpmAttestationRecordContext.VerifyAndCopyDeviceIds ListAuthorizationSet
        [{ tag := TAG_ATTESTATION_APPLICATION_ID, value := [1, 2, 3] }] []
      = (keymaster_error_t.KM_ERROR_OK,
          [{ tag := TAG_ATTESTATION_APPLICATION_ID, value := [1, 2, 3] }]) ∧
    ListAuthorizationSet.find
        (TpmAttestationRecordContext.VerifyAndCopyDeviceIds ListAuthorizationSet
          [{ tag := TAG_ATTESTATION_APPLICATION_ID, value := [1, 2, 3] }] []).2
        TAG_ATTESTATION_APPLICATION_ID = 0 := by
  decide

end secure_env

/-! ## `LaunchModemSimulatorIfEnabled` -/

namespace run_cvd

/-- C14 at the failing input: with the modem simulator enabled and instance
number 0, which is outside 1..3, the function passes the range check, opens no
server socket and starts the modem simulator subprocess. -/
theorem LaunchModemSimulatorIfEnabled_instance_number_zero (w : Nat)
    (vsock_server_opens : Int → Bool) (sim_type : Int) (ports : List Char) :
    LaunchModemSimulatorIfEnabled w vsock_server_opens
        { enable_modem_simulator := true
          modem_simulator_instance_number := 0
          modem_simulator_sim_type := sim_type
          modem_simulator_ports := ports }
      = LaunchResult.started sim_type [] := by
  simp [LaunchModemSimulatorIfEnabled, open_server_sockets]

/-- C18 at the failing input: with instance number 2 and the port list
`6500,6501`, the first server socket is bound to port 650, the entry `6500`
without its last digit, and the second to port 6501. -/
theorem LaunchModemSimulatorIfEnabled_truncates_port :
    LaunchModemSimulatorIfEnabled 64 (fun _ => true)
        { enable_modem_simulator := true
          modem_simulator_instance_number := 2
          modem_simulator_sim_type := 1
          modem_simulator_ports := "6500,6501".toList }
      = LaunchResult.started 1 [650, 6501] := by
  decide

end run_cvd

/-! ## The E2E handshake -/

namespace vsoc
namespace layout
namespace e2e_test

theorem status_status_set_value_self (S : Side) (s : E2ETestStage) (l : E2ETestRegionLayout) :
    (E2ETestRegionLayout.status_set_value S s l).status S = (l.status S).set_value s := by
  cases S <;> rfl

theorem status_status_set_value_of_ne (S T : Side) (s : E2ETestStage)
    (l : E2ETestRegionLayout) (h : T ≠ S) :
    (E2ETestRegionLayout.status_set_value S s l).status T = l.status T := by
  cases S <;> cases T <;> first | rfl | exact absurd rfl h

theorem data_status_set_value (S : Side) (s : E2ETestStage) (l : E2ETestRegionLayout) :
    (E2ETestRegionLayout.status_set_value S s l).data = l.data := by
  cases S <;> rfl

theorem status_with_data (l : E2ETestRegionLayout) (d : List E2EMemoryFill) (T : Side) :
    E2ETestRegionLayout.status { l with data := d } T = l.status T := by
  cases T <;> rfl

theorem Side.peer_ne (S : Side) : S.peer ≠ S := by
  cases S <;> decide

theorem all_records_match_congr (pattern : Side → Fin kOwnedFieldSize → Nat) (n : Nat)
    (S : Side) (l l' : E2ETestRegionLayout) (h : l'.data = l.data) :
    all_records_match pattern n S l' = all_records_match pattern n S l := by
  unfold all_records_match
  rw [h]

theorem all_records_match_iff (pattern : Side → Fin kOwnedFieldSize → Nat) (n : Nat)
    (S : Side) (l : E2ETestRegionLayout) :
    all_records_match pattern n S l = true ↔
      ∀ i, i < n → ∃ r, l.data[i]? = some r ∧ r.writable S.peer = pattern S.peer := by
  unfold all_records_match
  rw [List.all_eq_true]
  constructor
  · intro h i hi
    have hi' := h i (List.mem_range.mpr hi)
    cases hd : l.data[i]? with
    | none => rw [hd] at hi'; exact absurd hi' (by simp)
    | some r =>
      rw [hd] at hi'
      refine ⟨r, rfl, ?_⟩
      funext j
      exact (of_decide_eq_true hi') j
  · intro h i hi
    obtain ⟨r, hr, hrp⟩ := h i (List.mem_range.mp hi)
    rw [hr]
    exact decide_eq_true (fun j => congrFun hrp j)

/-- One event makes the register of `S` read `E2E_PEER_MEMORY_READ` only if it
read so before, or the event is the read-back of `S` from `E2E_MEMORY_FILLED`
with every record matching. -/
theorem protocol_step_reaches (pattern : Side → Fin kOwnedFieldSize → Nat) (n : Nat)
    (S : Side) (a : ProtocolAction) (l : E2ETestRegionLayout)
    (h : ((protocol_step pattern n a l).status S).value
      = some E2ETestStage.E2E_PEER_MEMORY_READ) :
    (l.status S).value = some E2ETestStage.E2E_PEER_MEMORY_READ ∨
    (a = ProtocolAction.read S ∧
      (l.status S).value = some E2ETestStage.E2E_MEMORY_FILLED ∧
      peer_memory_filled S l = true ∧
      all_records_match pattern n S l = true) := by
  cases a with
  | fill T =>
    simp only [protocol_step, fill_memory] at h
    split at h
    · by_cases hT : S = T
      · subst hT
        rw [status_status_set_value_self, E2ETestStageRegister.value_set_value] at h
        exact absurd h (by decide)
      · rw [status_status_set_value_of_ne T S _ _ hT, status_with_data] at h
        exact Or.inl h
    · exact Or.inl h
  | read T =>
    simp only [protocol_step, read_peer_memory] at h
    split at h
    · rename_i hg
      split at h
      · rename_i hm
        by_cases hT : S = T
        · subst hT
          exact Or.inr ⟨rfl, hg.1, hg.2, hm⟩
        · rw [status_status_set_value_of_ne T S _ _ hT] at h
          exact Or.inl h
      · exact Or.inl h
    · exact Or.inl h
  | corrupt d =>
    simp only [protocol_step] at h
    rw [status_with_data] at h
    exact Or.inl h

theorem protocol_run_reaches (pattern : Side → Fin kOwnedFieldSize → Nat) (n : Nat)
    (S : Side) (actions : List ProtocolAction) (l0 : E2ETestRegionLayout)
    (h0 : (l0.status S).value ≠ some E2ETestStage.E2E_PEER_MEMORY_READ)
    (hfin : ((protocol_run pattern n actions l0).status S).value
      = some E2ETestStage.E2E_PEER_MEMORY_READ) :
    ∃ before after, actions = before ++ ProtocolAction.read S :: after ∧
      ((protocol_run pattern n before l0).status S).value
        = some E2ETestStage.E2E_MEMORY_FILLED ∧
      peer_memory_filled S (protocol_run pattern n before l0) = true ∧
      all_records_match pattern n S (protocol_run pattern n before l0) = true ∧
      ((protocol_run pattern n (before ++ [ProtocolAction.read S]) l0).status S).value
        = some E2ETestStage.E2E_PEER_MEMORY_READ := by
  induction actions generalizing l0 with
  | nil => exact absurd hfin h0
  | cons a rest ih =>
    by_cases h1 : ((protocol_step pattern n a l0).status S).value
        = some E2ETestStage.E2E_PEER_MEMORY_READ
    · rcases protocol_step_reaches pattern n S a l0 h1 with h | ⟨ha, hs, hp, hm⟩
      · exact absurd h h0
      · subst ha
        exact ⟨[], rest, rfl, hs, hp, hm, h1⟩
    · obtain ⟨before, after, heq, hs, hp, hm, hr⟩ := ih (protocol_step pattern n a l0) h1 hfin
      exact ⟨a :: before, after, by rw [heq]; rfl, hs, hp, hm, hr⟩

theorem peer_memory_filled_ne_none (S : Side) (l : E2ETestRegionLayout)
    (hp : peer_memory_filled S l = true) :
    (l.status S.peer).value ≠ some E2ETestStage.E2E_STAGE_NONE := by
  intro hnone
  unfold peer_memory_filled at hp
  rw [hnone] at hp
  exact absurd hp (by decide)

theorem peer_eq_of_ne (S T : Side) (h : T ≠ S) : T = S.peer := by
  cases S <;> cases T <;> first | rfl | exact absurd rfl h

/-- An event of the protocol itself keeps: if the register of `S` reads
`E2E_PEER_MEMORY_READ`, the peer has filled and every record matches. -/
theorem protocol_step_keeps_verified (pattern : Side → Fin kOwnedFieldSize → Nat) (n : Nat)
    (S : Side) (a : ProtocolAction) (l : E2ETestRegionLayout)
    (hnc : ∀ d, a ≠ ProtocolAction.corrupt d)
    (hinv : (l.status S).value = some E2ETestStage.E2E_PEER_MEMORY_READ →
      peer_memory_filled S l = true ∧ all_records_match pattern n S l = true)
    (h : ((protocol_step pattern n a l).status S).value
      = some E2ETestStage.E2E_PEER_MEMORY_READ) :
    peer_memory_filled S (protocol_step pattern n a l) = true ∧
    all_records_match pattern n S (protocol_step pattern n a l) = true := by
  rcases protocol_step_reaches pattern n S a l h with hprev | ⟨ha, hs, hp, hm⟩
  · obtain ⟨hp, hm⟩ := hinv hprev
    cases a with
    | fill T =>
      have hstep : protocol_step pattern n (ProtocolAction.fill T) l = l := by
        simp only [protocol_step, fill_memory]
        rw [if_neg]
        intro hg
        by_cases hT : T = S
        · subst hT
          rw [hprev] at hg
          exact absurd hg (by decide)
        · rw [peer_eq_of_ne S T hT] at hg
          exact peer_memory_filled_ne_none S l hp hg
      rw [hstep]
      exact ⟨hp, hm⟩
    | read T =>
      by_cases hT : T = S
      · subst hT
        have hstep : protocol_step pattern n (ProtocolAction.read T) l = l := by
          simp only [protocol_step, read_peer_memory]
          rw [if_neg]
          rintro ⟨hg, -⟩
          rw [hprev] at hg
          exact absurd hg (by decide)
        rw [hstep]
        exact ⟨hp, hm⟩
      · have hTp := peer_eq_of_ne S T hT
        subst hTp
        simp only [protocol_step, read_peer_memory]
        split
        · split
          · refine ⟨?_, ?_⟩
            · unfold peer_memory_filled
              rw [status_status_set_value_self, E2ETestStageRegister.value_set_value]
              rfl
            · rw [all_records_match_congr pattern n S l _ (data_status_set_value _ _ l)]
              exact hm
          · exact ⟨hp, hm⟩
        · exact ⟨hp, hm⟩
    | corrupt d => exact absurd rfl (hnc d)
  · subst ha
    have hstep : protocol_step pattern n (ProtocolAction.read S) l
        = E2ETestRegionLayout.status_set_value S E2ETestStage.E2E_PEER_MEMORY_READ l := by
      simp only [protocol_step, read_peer_memory]
      rw [if_pos ⟨hs, hp⟩, if_pos hm]
    rw [hstep]
    refine ⟨?_, ?_⟩
    · unfold peer_memory_filled
      rw [status_status_set_value_of_ne S S.peer _ l (Side.peer_ne S)]
      exact hp
    · rw [all_records_match_congr pattern n S l _ (data_status_set_value _ _ l)]
      exact hm

theorem protocol_run_keeps_verified (pattern : Side → Fin kOwnedFieldSize → Nat) (n : Nat)
    (S : Side) (actions : List ProtocolAction) (l0 : E2ETestRegionLayout)
    (hnc : ∀ d, ProtocolAction.corrupt d ∉ actions)
    (hinv : (l0.status S).value = some E2ETestStage.E2E_PEER_MEMORY_READ →
      peer_memory_filled S l0 = true ∧ all_records_match pattern n S l0 = true)
    (h : ((protocol_run pattern n actions l0).status S).value
      = some E2ETestStage.E2E_PEER_MEMORY_READ) :
    peer_memory_filled S (protocol_run pattern n actions l0) = true ∧
    all_records_match pattern n S (protocol_run pattern n actions l0) = true := by
  induction actions generalizing l0 with
  | nil => exact hinv h
  | cons a rest ih =>
    have hna : ∀ d, a ≠ ProtocolAction.corrupt d := by
      intro d hd
      exact hnc d (hd ▸ List.mem_cons_self a rest)
    exact ih (protocol_step pattern n a l0)
      (fun d hd => hnc d (List.mem_cons_of_mem a hd))
      (protocol_step_keeps_verified pattern n S a l0 hna hinv) h

/-- C11: in a protocol run that starts with the register of side `S` not at
`E2E_PEER_MEMORY_READ` and ends with it there, `S` made a read-back from
`E2E_MEMORY_FILLED` at which every record below the computed record count held
the peer's pattern in its peer-writable field, and that read-back set the
register; a read-back that finds a mismatch leaves the register at
`E2E_MEMORY_FILLED`; and when nothing outside the protocol overwrote the
records, they still hold the peer's pattern in the state reached. -/
theorem PEER_MEMORY_READ_implies_verified (w header_size record_size region_size : Nat)
    (pattern : Side → Fin kOwnedFieldSize → Nat) (S : Side)
    (actions : List ProtocolAction) (l0 : E2ETestRegionLayout)
    (h0 : (l0.status S).value ≠ some E2ETestStage.E2E_PEER_MEMORY_READ)
    (hfin : ((protocol_run pattern (NumFillRecords w header_size record_size region_size)
        actions l0).status S).value = some E2ETestStage.E2E_PEER_MEMORY_READ) :
    (∃ before after, actions = before ++ ProtocolAction.read S :: after ∧
      ((protocol_run pattern (NumFillRecords w header_size record_size region_size)
          before l0).status S).value = some E2ETestStage.E2E_MEMORY_FILLED ∧
      (∀ i, i < NumFillRecords w header_size record_size region_size →
        ∃ r, (protocol_run pattern (NumFillRecords w header_size record_size region_size)
            before l0).data[i]? = some r ∧ r.writable S.peer = pattern S.peer) ∧
      ((protocol_run pattern (NumFillRecords w header_size record_size region_size)
          (before ++ [ProtocolAction.read S]) l0).status S).value
        = some E2ETestStage.E2E_PEER_MEMORY_READ) ∧
    (∀ l : E2ETestRegionLayout,
      (l.status S).value = some E2ETestStage.E2E_MEMORY_FILLED →
      all_records_match pattern (NumFillRecords w header_size record_size region_size) S l
        = false →
      ((read_peer_memory pattern (NumFillRecords w header_size record_size region_size)
          S l).status S).value = some E2ETestStage.E2E_MEMORY_FILLED) ∧
    ((∀ d, ProtocolAction.corrupt d ∉ actions) →
      ∀ i, i < NumFillRecords w header_size record_size region_size →
        ∃ r, (protocol_run pattern (NumFillRecords w header_size record_size region_size)
            actions l0).data[i]? = some r ∧ r.writable S.peer = pattern S.peer) := by
  refine ⟨?_, ?_, ?_⟩
  · obtain ⟨before, after, heq, hs, -, hm, hr⟩ :=
      protocol_run_reaches pattern _ S actions l0 h0 hfin
    exact ⟨before, after, heq, hs, (all_records_match_iff pattern _ S _).mp hm, hr⟩
  · intro l hs hm
    unfold read_peer_memory
    rw [hm]
    simp only [Bool.false_eq_true, if_false, ite_self]
    exact hs
  · intro hnc
    exact (all_records_match_iff pattern _ S _).mp
      (protocol_run_keeps_verified pattern _ S actions l0 hnc
        (fun h => absurd h h0) hfin).2

theorem PEER_MEMORY_READ_implies_verified_witness :
    ((fresh_region.status Side.host).value ≠ some E2ETestStage.E2E_PEER_MEMORY_READ ∧
      ((protocol_run test_pattern
          (NumFillRecords 64 sizeof_E2ETestRegionLayout sizeof_E2EMemoryFill 72)
          [ProtocolAction.fill Side.host, ProtocolAction.fill Side.guest,
            ProtocolAction.read Side.host] fresh_region).status Side.host).value
        = some E2ETestStage.E2E_PEER_MEMORY_READ) ∧
    ∀ i, i < NumFillRecords 64 sizeof_E2ETestRegionLayout sizeof_E2EMemoryFill 72 →
      ∃ r, (protocol_run test_pattern
          (NumFillRecords 64 sizeof_E2ETestRegionLayout sizeof_E2EMemoryFill 72)
          [ProtocolAction.fill Side.host, ProtocolAction.fill Side.guest,
            ProtocolAction.read Side.host] fresh_region).data[i]? = some r ∧
        r.writable Side.host.peer = test_pattern Side.host.peer :=
  ⟨⟨by decide, by decide⟩,
   (PEER_MEMORY_READ_implies_verified 64 sizeof_E2ETestRegionLayout sizeof_E2EMemoryFill 72
      test_pattern Side.host
      [ProtocolAction.fill Side.host, ProtocolAction.fill Side.guest,
        ProtocolAction.read Side.host] fresh_region (by decide) (by decide)).2.2
      (by intro d hd; simp at hd)⟩

end e2e_test
end layout

/-- C12: when no region of the unfindable layout's name is registered with the
mapping mechanism, in any domain, `Open` over `E2EUnfindableRegionLayout`
returns false for every domain and leaves the view as it was, so the view
never becomes one whose `data()` is valid. -/
theorem TypedRegionView.Open_unfindable
    (registered : Option String → List (Nat × RegionDescriptor)) (region_name : String)
    (domain : Option String) (v : RegionView)
    (hname : ∀ d, ∀ r ∈ registered d, r.2.name ≠ region_name) :
    TypedRegionView.Open (open_by_name registered)
        (layout.e2e_test.E2EUnfindableRegionLayout region_name) domain v
      = (false, v) := by
  have hnone : (registered domain).find? (fun r => r.2.name == region_name) = none := by
    rw [List.find?_eq_none]
    intro r hr hbeq
    exact hname domain r hr (beq_iff_eq.mp hbeq)
  simp only [TypedRegionView.Open, open_by_name, layout.e2e_test.E2EUnfindableRegionLayout,
    hnone]

theorem TypedRegionView.Open_unfindable_witness :
    (∀ d, ∀ r ∈ small_region_registry "e2e_primary" d, r.2.name ≠ "e2e_unfindable") ∧
    TypedRegionView.Open (open_by_name (small_region_registry "e2e_primary"))
        (layout.e2e_test.E2EUnfindableRegionLayout "e2e_unfindable") none
        { region_base_ := 0,
          region_desc_ := { name := "", region_size := 0, offset_of_region_data := 0 } }
      = (false,
          { region_base_ := 0,
            region_desc_ := { name := "", region_size := 0, offset_of_region_data := 0 } }) :=
  ⟨by intro d r hr; simp [small_region_registry] at hr; subst hr; decide,
   TypedRegionView.Open_unfindable (small_region_registry "e2e_primary") "e2e_unfindable" none
     { region_base_ := 0,
       region_desc_ := { name := "", region_size := 0, offset_of_region_data := 0 } }
     (by intro d r hr; simp [small_region_registry] at hr; subst hr; decide)⟩

end vsoc
